import Mathlib

/-!
Shallow embedding of the cop-migration-profiler scripts.

Sources modelled:
* `src/scripts/getApplicationList.mjs` (auth config, token extraction, pagination, limit 25)
* `src/scripts/getProjectProperties.mjs` (same shape, projects fetch, limit 5)
* `src/scripts/getProjectUserInformation.mjs` (projects fetch limit 500, per-project
  role-assignments loop)
* the all-in-one `main.mjs` reproduced in the README (stages returning `[]`,
  emptiness short-circuit in `main`, branches fetch with hard-coded 500)
* `src/createReport.mjs` (join of the four snapshots into CSV rows)

JavaScript semantics is modelled explicitly: objects are insertion-ordered
association lists, `undefined` and `""` are falsy, `String#replace` with a string
pattern replaces only the first occurrence, `split` keeps empty fragments.
-/

namespace CopProfiler

/-! ## Character-level models of the JavaScript string operations used by the scripts -/

/-- Boolean prefix test on character lists. -/
def charsPrefix : List Char → List Char → Bool
  | [], _ => true
  | _ :: _, [] => false
  | a :: as, b :: bs => a = b && charsPrefix as bs

/-- Model of JavaScript `s.startsWith(pre)`. -/
def jsStartsWith (s pre : String) : Bool := charsPrefix pre.data s.data

/-- Model of JavaScript `s.toLowerCase()` (ASCII, which covers the literals used). -/
def jsToLower (s : String) : String := ⟨s.data.map Char.toLower⟩

/-- Whitespace characters relevant to `String#trim` for the inputs that occur here. -/
def isJsSpace (c : Char) : Bool := c = ' ' || c = '\t' || c = '\n' || c = '\r'

/-- Model of JavaScript `s.trim()`. -/
def jsTrim (s : String) : String :=
  ⟨((s.data.dropWhile isJsSpace).reverse.dropWhile isJsSpace).reverse⟩

/-- Split a character list at every occurrence of `sep`, keeping empty fragments,
exactly like JavaScript `String#split` with a single-character separator. -/
def splitChars (sep : Char) : List Char → List (List Char)
  | [] => [[]]
  | c :: cs =>
    let r := splitChars sep cs
    if c = sep then [] :: r
    else match r with
      | [] => [[c]]
      | h :: t => (c :: h) :: t

/-- Model of JavaScript `s.split(sep)` for a one-character separator. -/
def jsSplit (s : String) (sep : Char) : List String := (splitChars sep s.data).map String.mk

/-- Replace the first occurrence of `pat` in a character list. -/
def replaceFirstChars (pat rep : List Char) : List Char → List Char
  | [] => []
  | c :: cs =>
    if charsPrefix pat (c :: cs) then rep ++ (c :: cs).drop pat.length
    else c :: replaceFirstChars pat rep cs

/-- Model of JavaScript `s.replace(pat, rep)` with a string pattern: only the first
occurrence is replaced. -/
def jsReplaceFirst (s pat rep : String) : String := ⟨replaceFirstChars pat.data rep.data s.data⟩

/-! ## JavaScript objects as insertion-ordered association lists -/

/-- Lookup `obj[k]`; `none` stands for `undefined`. -/
def jsGet (m : List (String × α)) (k : String) : Option α :=
  (m.find? (fun kv => kv.1 = k)).map (·.2)

/-- Truthiness test `if (obj[k]) ...` for maps whose values are objects (always
truthy), i.e. a key-presence test. -/
def hasKey (m : List (String × α)) (k : String) : Bool :=
  m.any (fun kv => kv.1 = k)

/-- Property assignment `obj[k] = v`: an existing key keeps its position and gets
the new value, a new key is appended at the end. -/
def jsSet (m : List (String × α)) (k : String) (v : α) : List (String × α) :=
  if hasKey m k then m.map (fun kv => if kv.1 = k then (kv.1, v) else kv) else m ++ [(k, v)]

/-- JavaScript `a || b` where `a` is a possibly-undefined string: `undefined` and
`""` are falsy. -/
def jsOrString (o : Option String) (d : String) : String :=
  match o with
  | some s => if s = "" then d else s
  | none => d

/-! ## Configuration and the session authenticator

Models `config.json` and the identical authentication blocks of
`getApplicationList.mjs` (lines 95-157), `getProjectProperties.mjs` (lines
92-154), `getProjectUserInformation.mjs` (lines 61-115 and 169-223) and the three
fetchers in the README's `main.mjs`. Absent JSON fields are modelled as `""`
(both `undefined` and `""` are falsy in every check the scripts make). -/

structure Config where
  customer : String
  email : String
  password : String
  accesstoken : String
  authUrlTemplate : String
  authUrlV2Template : String
  applicationsUrlTemplate : String
  projectsUrlTemplate : String
  branchesUrlTemplate : String
deriving DecidableEq

/-- `config.authUrlTemplate.replace('{customer}', config.customer)` — the v1
(password-flow) authentication endpoint. -/
def authUrl (c : Config) : String := jsReplaceFirst c.authUrlTemplate "{customer}" c.customer

/-- `config.authUrlV2Template.replace('{customer}', config.customer)` — the v2
(access-token-flow) authentication endpoint. -/
def authUrlV2 (c : Config) : String := jsReplaceFirst c.authUrlV2Template "{customer}" c.customer

/-- The guard `config.password && config.password.trim() !== ""`. -/
def passwordPresent (c : Config) : Bool := c.password != "" && jsTrim c.password != ""

/-- The guard `config.accesstoken && config.accesstoken.trim() !== ""`. -/
def accesstokenPresent (c : Config) : Bool := c.accesstoken != "" && jsTrim c.accesstoken != ""

/-- The POST request assembled for the authentication call: target URL and the
form-encoded body. -/
structure AuthRequest where
  url : String
  data : List (String × String)
deriving DecidableEq

/-- The `if (config.password ...) ... else if (config.accesstoken ...) ... else
throw` cascade that chooses the authentication flow. -/
def buildAuthConfig (config : Config) : Except String AuthRequest :=
  if passwordPresent config then
    .ok ⟨authUrl config, [("email", config.email), ("password", config.password)]⟩
  else if accesstokenPresent config then
    .ok ⟨authUrlV2 config, [("email", config.email), ("accesstoken", config.accesstoken)]⟩
  else
    .error "Neither password nor access token is provided in the config."

/-- The parts of the authentication response the scripts read: the `set-cookie`
header (a list of cookie strings, `[]` when absent) and `data.jwt` (`""` when
absent). -/
structure AuthResponse where
  setCookie : List String
  jwt : String
deriving DecidableEq

/-- `tokenCookie.split(';')[0].split('=')[1]` — the value part of a cookie. -/
def cookieTokenValue (cookie : String) : String :=
  ((jsSplit ((jsSplit cookie ';').headD "") '=').getD 1 "")

/-- The token obtained from the `set-cookie` header path: find the cookie starting
with `access_token=` and take its value; `""` when the header or the cookie is
missing or the value is empty (all falsy in the script). -/
def cookieToken (resp : AuthResponse) : String :=
  match resp.setCookie.find? (fun c => jsStartsWith c "access_token=") with
  | some cookie => cookieTokenValue cookie
  | none => ""

/-- Token extraction: cookie header first, `data.jwt` as fallback, error when both
are falsy — the block `let token; ... if (!token) throw new Error(...)`. -/
def extractToken (resp : AuthResponse) : Except String String :=
  let token := if cookieToken resp != "" then cookieToken resp
               else if resp.jwt != "" then resp.jwt else ""
  if token != "" then .ok token else .error "No access token found in the response."

/-- The whole authentication step: build the request, send it to the server,
extract the token. A configuration error is raised before the server is ever
consulted. -/
def authenticate (server : AuthRequest → AuthResponse) (config : Config) : Except String String :=
  match buildAuthConfig config with
  | .error e => .error e
  | .ok req => extractToken (server req)

/-! ## The paginated resource fetcher

The `while (more...)` loops of all scripts have the same shape: request the page
at the current offset, and on HTTP 200 append the formatted page data, continue
iff the page length equals the limit, advancing the offset by the limit; on any
other status log and stop, keeping what was accumulated. A run is modelled
against the finite trace of responses the server gives to the successive
requests. -/

structure Page (ρ : Type) where
  status : Nat
  data : List ρ
deriving DecidableEq

/-- Items accumulated by the pagination loop over a trace of responses. -/
def fetchLoop (limit : Nat) (format : ρ → α) : List (Page ρ) → List α
  | [] => []
  | page :: rest =>
    if page.status = 200 then
      if page.data.length = limit then page.data.map format ++ fetchLoop limit format rest
      else page.data.map format
    else []

/-- The offsets at which the loop issues requests, starting from `offset`. -/
def fetchOffsets (limit : Nat) (offset : Nat) : List (Page ρ) → List Nat
  | [] => []
  | page :: rest =>
    offset :: (if page.status = 200 ∧ page.data.length = limit
               then fetchOffsets limit (offset + limit) rest else [])

/-- `const limit = 25` in `getApplicationList.mjs` (line 161) and in the README
`main.mjs` applications fetch. -/
def applicationsPageLimit : Nat := 25

/-- `const limit = 5` in `getProjectProperties.mjs` (line 161). -/
def projectPropertiesPageLimit : Nat := 5

/-- `const limit = 500` in `getProjectUserInformation.mjs` (line 118). -/
def userInformationProjectsPageLimit : Nat := 500

/-- `const limit = 500` in the README `main.mjs` projects fetch. -/
def mainProjectsPageLimit : Nat := 500

/-- The hard-coded `500` in the README branches fetch
(`moreBranches = branchesData.length === 500; offset += 500`). -/
def branchesPageLimit : Nat := 500

/-! ## Resource collectors and pipeline stages (README `main.mjs`) -/

/-- Raw application record as read from the API page
(`application.relationships.projects.data` flattened to its ids). -/
structure ApiApplication where
  id : String
  name : String
  description : String
  projectIds : List String
deriving DecidableEq

/-- Normalized application, as written to `applicationsList.json`. -/
structure Application where
  id : String
  name : String
  description : String
  projects : List String
deriving DecidableEq

/-- The per-page map in the applications fetch. -/
def formatApplication (a : ApiApplication) : Application :=
  ⟨a.id, a.name, a.description, a.projectIds⟩

/-- Raw project record as read from the API page. -/
structure ApiProject where
  id : String
  name : String
  properties : List (String × String)
  branchesRelated : String
deriving DecidableEq

/-- Normalized project of the README projects fetch, as written to
`projectList.json`. -/
structure PipelineProject where
  id : String
  name : String
  properties : List (String × String)
  branchesRelated : String
deriving DecidableEq

/-- The per-page map in the README projects fetch, including the
`Object.keys(properties).length ? properties : { key: 'value' }` placeholder. -/
def formatProject (p : ApiProject) : PipelineProject :=
  ⟨p.id, p.name, if p.properties.length ≠ 0 then p.properties else [("key", "value")],
   p.branchesRelated⟩

/-- Branch record: the scripts keep raw API objects and later read
`branch.relationships.project.data.id` and `branch.attributes.name`, which are the
two fields modelled. -/
structure Branch where
  projectId : String
  name : String
deriving DecidableEq

/-- One resource of a role-assignments `included` compound document; `type` is
`"users"` or `"groups"`, users carry `attributes.name`/`attributes.email`, groups
carry `attributes.groupname`. -/
structure IncludedItem where
  type : String
  name : String
  email : String
  groupname : String
deriving DecidableEq

/-- Response to one per-project role-assignments request. -/
structure RoleResponse where
  status : Nat
  included : List IncludedItem

/-- Principal detail record, as written to `userDetailsList.json`. -/
structure Detail where
  projectName : String
  projectId : String
  userType : String
  name : String
  email : String
deriving DecidableEq

/-- The users-then-groups records built from one successful role-assignments
response (`getProjectUserInformation.mjs` lines 243-259). -/
def roleDetailsFor (project : PipelineProject) (resp : RoleResponse) : List Detail :=
  let users := (resp.included.filter (fun item => item.type = "users")).map (fun user =>
    ⟨project.name, project.id, "User", user.name, user.email⟩)
  let groups := (resp.included.filter (fun item => item.type = "groups")).map (fun group =>
    ⟨project.name, project.id, "GroupName", group.groupname, ""⟩)
  users ++ groups

/-- The `for (const project of allProjects)` loop: one request per project, on
status 200 append that project's users and groups, otherwise log and continue
with the next project (`getProjectUserInformation.mjs` lines 225-263, README
`fetchRoleAssignments`). -/
def fetchRoleAssignments (server : String → RoleResponse)
    (allProjects : List PipelineProject) : List Detail :=
  allProjects.foldl (fun allDetails project =>
    if (server project.id).status = 200 then allDetails ++ roleDetailsFor project (server project.id)
    else allDetails) []

/-- `['yes', 'y'].includes(answer.toLowerCase())`. -/
def answerYes (answer : String) : Bool := ["yes", "y"].contains (jsToLower answer)

/-- Environment of one run of the applications stage: which artifacts already
exist, the user's prompt answers, the configuration, the authentication server
and the trace of pages the resource server returns. -/
structure AppStageEnv where
  jsonExists : Bool
  jsonAnswer : String
  csvExists : Bool
  csvAnswer : String
  config : Config
  authServer : AuthRequest → AuthResponse
  pages : List (Page ApiApplication)

/-- `if (!config.authUrlTemplate || !config.authUrlV2Template ||
!config.applicationsUrlTemplate || !config.customer) throw`. -/
def requiredAppConfigOk (c : Config) : Bool :=
  c.authUrlTemplate != "" && c.authUrlV2Template != "" &&
  c.applicationsUrlTemplate != "" && c.customer != ""

/-- README `fetchApplicationsWithAuth`: overwrite prompts (declining returns
`[]`), configuration check, authentication, paginated fetch; every failure is
caught and yields `[]`. -/
def fetchApplicationsWithAuth (env : AppStageEnv) : List Application :=
  if env.jsonExists && !(answerYes env.jsonAnswer) then []
  else if env.csvExists && !(answerYes env.csvAnswer) then []
  else if !(requiredAppConfigOk env.config) then []
  else
    match buildAuthConfig env.config with
    | .error _ => []
    | .ok req =>
      match extractToken (env.authServer req) with
      | .error _ => []
      | .ok _token => fetchLoop applicationsPageLimit formatApplication env.pages

/-- Environment of one run of the README projects stage. -/
structure ProjectsStageEnv where
  snapshotExists : Bool
  snapshot : List PipelineProject
  config : Config
  authServer : AuthRequest → AuthResponse
  pages : List (Page ApiProject)

/-- README `fetchProjectsWithAuth`: an existing `projectList.json` short-circuits
the network fetch entirely; otherwise authenticate and paginate with limit 500. -/
def fetchProjectsWithAuth (env : ProjectsStageEnv) : List PipelineProject :=
  if env.snapshotExists then env.snapshot
  else
    match buildAuthConfig env.config with
    | .error _ => []
    | .ok req =>
      match extractToken (env.authServer req) with
      | .error _ => []
      | .ok _token => fetchLoop mainProjectsPageLimit formatProject env.pages

/-- Environment of one run of the branches stage. -/
structure BranchesStageEnv where
  jsonExists : Bool
  jsonAnswer : String
  config : Config
  authServer : AuthRequest → AuthResponse
  pages : List (Page Branch)

/-- `if (!authUrl || !authUrlV2 || !branchesUrlTemplate) throw` after the
`{customer}` substitution in the branches fetch. -/
def requiredBranchesConfigOk (c : Config) : Bool :=
  authUrl c != "" && authUrlV2 c != "" &&
  jsReplaceFirst c.branchesUrlTemplate "{customer}" c.customer != ""

/-- README `fetchBranchesWithAuth`: overwrite prompt (declining returns `[]`),
URL check, authentication, pagination with the hard-coded limit 500; branches are
accumulated raw (no per-item formatting). -/
def fetchBranchesWithAuth (env : BranchesStageEnv) : List Branch :=
  if env.jsonExists && !(answerYes env.jsonAnswer) then []
  else if !(requiredBranchesConfigOk env.config) then []
  else
    match buildAuthConfig env.config with
    | .error _ => []
    | .ok req =>
      match extractToken (env.authServer req) with
      | .error _ => []
      | .ok _token => fetchLoop branchesPageLimit (fun b => b) env.pages

/-- The five stages the README `main` can run. -/
inductive Stage where
  | fetchApplications
  | fetchProjects
  | fetchRoles
  | fetchBranches
  | associateProjectsToBranches
deriving DecidableEq

/-- README `main`: run the stages in order and stop as soon as one returns an
empty collection; the returned list records which stages were entered. -/
def mainRun (appEnv : AppStageEnv) (projEnv : ProjectsStageEnv)
    (roleServer : String → RoleResponse) (branchEnv : BranchesStageEnv) : List Stage :=
  let allApplications := fetchApplicationsWithAuth appEnv
  if allApplications.length = 0 then [.fetchApplications]
  else
    let allProjects := fetchProjectsWithAuth projEnv
    if allProjects.length = 0 then [.fetchApplications, .fetchProjects]
    else
      let allDetails := fetchRoleAssignments roleServer allProjects
      if allDetails.length = 0 then [.fetchApplications, .fetchProjects, .fetchRoles]
      else
        let allBranches := fetchBranchesWithAuth branchEnv
        if allBranches.length = 0 then
          [.fetchApplications, .fetchProjects, .fetchRoles, .fetchBranches]
        else
          [.fetchApplications, .fetchProjects, .fetchRoles, .fetchBranches,
           .associateProjectsToBranches]

/-! ## The correlator / report builder (`src/createReport.mjs`) -/

/-- Project record as read from `projectList.json` by the report builder
(fields `id`, `name`, `type`). -/
structure SnapshotProject where
  id : String
  name : String
  type : String
deriving DecidableEq

/-- Entry of an aggregate's `users` list (`{ name, email, type: 'Individual User' }`). -/
structure UserEntry where
  name : String
  email : String
  type : String
deriving DecidableEq

/-- Entry of an aggregate's `groups` list (`{ name, type: 'Group' }`). -/
structure GroupEntry where
  name : String
  type : String
deriving DecidableEq

/-- The per-project aggregate stored in `projectMap`. -/
structure Agg where
  projectName : String
  projectId : String
  type : String
  branches : List String
  users : List UserEntry
  groups : List GroupEntry
deriving DecidableEq

/-- One CSV output row of `finalProjectDetails.csv`. -/
structure Row where
  applicationName : String
  projectName : String
  projectId : String
  type : String
  name : String
  email : String
  branchName1 : String
  branchName2 : String
  branchName3 : String
  branchName4 : String
  branchName5 : String
deriving DecidableEq

/-- The aggregate a project is initialised with in the `reduce` building
`projectMap` (lines 27-37). -/
def initAgg (project : SnapshotProject) : Agg :=
  ⟨project.name, project.id, project.type, [], [], []⟩

/-- `allProjects.reduce((map, project) => { map[project.id] = {...}; return map }, {})`. -/
def buildProjectMap (allProjects : List SnapshotProject) : List (String × Agg) :=
  allProjects.foldl (fun map project => jsSet map project.id (initAgg project)) []

/-- One step of the branches `forEach` (lines 39-44): push the branch name onto
its project's list when the project is known, else do nothing. -/
def addBranch (map : List (String × Agg)) (branch : Branch) : List (String × Agg) :=
  if hasKey map branch.projectId then
    map.map (fun kv => if kv.1 = branch.projectId
                       then (kv.1, { kv.2 with branches := kv.2.branches ++ [branch.name] })
                       else kv)
  else map

/-- `allBranches.data.forEach(branch => ...)`. -/
def addBranches (map : List (String × Agg)) (allBranches : List Branch) : List (String × Agg) :=
  allBranches.foldl addBranch map

/-- The body of the details `forEach` applied to one aggregate (lines 49-53):
`'User'` records join `users` (typed "Individual User"), `'GroupName'` records
join `groups` (typed "Group"), anything else is dropped. -/
def aggAddDetail (a : Agg) (detail : Detail) : Agg :=
  if detail.userType = "User" then
    { a with users := a.users ++ [⟨detail.name, detail.email, "Individual User"⟩] }
  else if detail.userType = "GroupName" then
    { a with groups := a.groups ++ [⟨detail.name, "Group"⟩] }
  else a

/-- One step of the details `forEach` (lines 46-55). -/
def addDetail (map : List (String × Agg)) (detail : Detail) : List (String × Agg) :=
  if hasKey map detail.projectId then
    map.map (fun kv => if kv.1 = detail.projectId then (kv.1, aggAddDetail kv.2 detail) else kv)
  else map

/-- `allDetails.forEach(detail => ...)`. -/
def addDetails (map : List (String × Agg)) (allDetails : List Detail) : List (String × Agg) :=
  allDetails.foldl addDetail map

/-- The `reduce` building `applicationMap` (lines 57-64): for every application,
for every listed project id known to `projectMap`, write the application's name. -/
def buildApplicationMap (allApplications : List Application)
    (projectMap : List (String × Agg)) : List (String × String) :=
  allApplications.foldl (fun appMap application =>
    application.projects.foldl (fun appMap projectId =>
      if hasKey projectMap projectId then jsSet appMap projectId application.name else appMap)
      appMap) []

/-- `const branches = project.branches.slice(0, 5); while (branches.length < 5)
branches.push('')` (lines 68-70). -/
def padFive (branches : List String) : List String :=
  let b := branches.take 5
  b ++ List.replicate (5 - b.length) ""

/-- The rows pushed for one aggregate (lines 72-102): the application name with
the `|| 'No Application Name'` fallback, all user rows, then all group rows. -/
def rowsFor (appMap : List (String × String)) (a : Agg) : List Row :=
  let branches := padFive a.branches
  let applicationName := jsOrString (jsGet appMap a.projectId) "No Application Name"
  a.users.map (fun user =>
    ⟨applicationName, a.projectName, a.projectId, user.type, user.name, user.email,
     branches.getD 0 "", branches.getD 1 "", branches.getD 2 "", branches.getD 3 "",
     branches.getD 4 ""⟩)
  ++ a.groups.map (fun group =>
    ⟨applicationName, a.projectName, a.projectId, group.type, group.name, "",
     branches.getD 0 "", branches.getD 1 "", branches.getD 2 "", branches.getD 3 "",
     branches.getD 4 ""⟩)

/-- `combineDataAndGenerateCsv`, with the four snapshot files passed as inputs and
the list of CSV rows returned. -/
def combineDataAndGenerateCsv (allProjects : List SnapshotProject) (allDetails : List Detail)
    (allBranches : List Branch) (allApplications : List Application) : List Row :=
  let projectMap := addDetails (addBranches (buildProjectMap allProjects) allBranches) allDetails
  let applicationMap := buildApplicationMap allApplications projectMap
  (projectMap.map (·.2)).flatMap (rowsFor applicationMap)

/-! ## Specification-side selectors used to state the theorems -/

/-- The last element of a list satisfying `q`, mirroring last-write-wins map
updates. -/
def lastWith (q : α → Bool) : List α → Option α
  | [] => none
  | x :: xs =>
    match lastWith q xs with
    | some y => some y
    | none => if q x then some x else none

/-- First occurrences of the given keys that are not already in `seen`, in
order — the insertion order of a JavaScript object built by successive
assignments. -/
def newKeys (seen : List String) : List String → List String
  | [] => []
  | k :: ks =>
    if seen.any (fun s => s = k) then newKeys seen ks
    else k :: newKeys (seen ++ [k]) ks

/-- The application name the report assigns to project id `k`: the name of the
last application whose project list contains `k`, with empty or missing names
falling back to the sentinel. -/
def specAppName (allApplications : List Application) (k : String) : String :=
  match lastWith (fun a => a.projects.any (fun pid => pid = k)) allApplications with
  | some a => if a.name = "" then "No Application Name" else a.name
  | none => "No Application Name"

/-- The branch names fetched for project id `k`, in fetch order. -/
def specBranchNames (allBranches : List Branch) (k : String) : List String :=
  (allBranches.filter (fun b => b.projectId = k)).map (·.name)

/-- The aggregate the three `forEach` phases leave in `projectMap` at key `k`
(for `k` a key of the map; a junk aggregate otherwise). -/
def specAgg (allProjects : List SnapshotProject) (allDetails : List Detail)
    (allBranches : List Branch) (k : String) : Agg :=
  match lastWith (fun p => p.id = k) allProjects with
  | none => ⟨"", "", "", [], [], []⟩
  | some p =>
    { projectName := p.name, projectId := p.id, type := p.type,
      branches := specBranchNames allBranches k,
      users := (allDetails.filter (fun d => d.projectId = k && d.userType = "User")).map
        (fun d => ⟨d.name, d.email, "Individual User"⟩),
      groups := (allDetails.filter (fun d => d.projectId = k && d.userType = "GroupName")).map
        (fun d => ⟨d.name, "Group"⟩) }

/-- The rows the report emits for project id `k`: all user rows then all group
rows, in snapshot order, with the first five branch names padded by `""`. -/
def specRowsFor (allApplications : List Application) (allProjects : List SnapshotProject)
    (allDetails : List Detail) (allBranches : List Branch) (k : String) : List Row :=
  match lastWith (fun p => p.id = k) allProjects with
  | none => []
  | some p =>
    let applicationName := specAppName allApplications k
    let slots := padFive (specBranchNames allBranches k)
    ((allDetails.filter (fun d => d.projectId = k && d.userType = "User")).map (fun d =>
      ⟨applicationName, p.name, p.id, "Individual User", d.name, d.email,
       slots.getD 0 "", slots.getD 1 "", slots.getD 2 "", slots.getD 3 "", slots.getD 4 ""⟩))
    ++ ((allDetails.filter (fun d => d.projectId = k && d.userType = "GroupName")).map (fun d =>
      ⟨applicationName, p.name, p.id, "Group", d.name, "",
       slots.getD 0 "", slots.getD 1 "", slots.getD 2 "", slots.getD 3 "", slots.getD 4 ""⟩))

/-! ## Basic lemmas about the JavaScript object model -/

theorem jsGet_nil (k : String) : jsGet ([] : List (String × α)) k = none := rfl

theorem jsGet_cons (k₀ : String) (v₀ : α) (m : List (String × α)) (k : String) :
    jsGet ((k₀, v₀) :: m) k = if k₀ = k then some v₀ else jsGet m k := by
  by_cases h : k₀ = k <;> simp [jsGet, List.find?_cons, h]

theorem hasKey_nil (k : String) : hasKey ([] : List (String × α)) k = false := rfl

theorem hasKey_cons (k₀ : String) (v₀ : α) (m : List (String × α)) (k : String) :
    hasKey ((k₀, v₀) :: m) k = (decide (k₀ = k) || hasKey m k) := by
  simp [hasKey]

theorem hasKey_true_iff (m : List (String × α)) (k : String) :
    hasKey m k = true ↔ ∃ v, jsGet m k = some v := by
  induction m with
  | nil => simp [hasKey_nil, jsGet_nil]
  | cons kv rest ih =>
    obtain ⟨k₀, v₀⟩ := kv
    rw [hasKey_cons, jsGet_cons]
    by_cases h : k₀ = k <;> simp [h, ih]

theorem jsGet_eq_none_of_hasKey_false {m : List (String × α)} {k : String}
    (h : hasKey m k = false) : jsGet m k = none := by
  cases hg : jsGet m k with
  | none => rfl
  | some v =>
    have : hasKey m k = true := (hasKey_true_iff m k).mpr ⟨v, hg⟩
    rw [h] at this
    exact absurd this (by simp)

theorem hasKey_of_jsGet_some {m : List (String × α)} {k : String} {v : α}
    (h : jsGet m k = some v) : hasKey m k = true :=
  (hasKey_true_iff m k).mpr ⟨v, h⟩

theorem jsGet_mapUpdate (g : α → α) (key : String) (m : List (String × α)) (k : String) :
    jsGet (m.map (fun kv => if kv.1 = key then (kv.1, g kv.2) else kv)) k
      = if key = k then (jsGet m k).map g else jsGet m k := by
  induction m with
  | nil => by_cases h : key = k <;> simp [jsGet_nil, h]
  | cons kv rest ih =>
    obtain ⟨k₀, v₀⟩ := kv
    by_cases h₀ : k₀ = key
    · by_cases h₁ : key = k
      · subst h₀; subst h₁
        simp [jsGet_cons, ih]
      · subst h₀
        have h₂ : ¬ k₀ = k := fun hh => h₁ hh
        simp [jsGet_cons, ih, h₁, h₂]
    · by_cases h₁ : k₀ = k
      · subst h₁
        have h₂ : ¬ key = k₀ := fun hh => h₀ hh.symm
        simp [jsGet_cons, ih, h₀, h₂]
      · simp [jsGet_cons, ih, h₀, h₁]

theorem keys_mapUpdate (g : α → α) (key : String) (m : List (String × α)) :
    (m.map (fun kv => if kv.1 = key then (kv.1, g kv.2) else kv)).map (·.1) = m.map (·.1) := by
  rw [List.map_map]
  apply List.map_congr_left
  intro kv _
  by_cases h : kv.1 = key <;> simp [h]

theorem hasKey_append (m₁ m₂ : List (String × α)) (k : String) :
    hasKey (m₁ ++ m₂) k = (hasKey m₁ k || hasKey m₂ k) := by
  simp [hasKey]

theorem jsGet_append (m₁ m₂ : List (String × α)) (k : String) :
    jsGet (m₁ ++ m₂) k = ((jsGet m₁ k).or (jsGet m₂ k)) := by
  induction m₁ with
  | nil => simp [jsGet_nil]
  | cons kv rest ih =>
    obtain ⟨k₀, v₀⟩ := kv
    rw [List.cons_append, jsGet_cons, jsGet_cons]
    by_cases h : k₀ = k <;> simp [h, ih]

theorem jsGet_jsSet (m : List (String × α)) (key : String) (v : α) (k : String) :
    jsGet (jsSet m key v) k = if key = k then some v else jsGet m k := by
  unfold jsSet
  by_cases hk : hasKey m key
  · rw [if_pos hk]
    have h' : jsGet (m.map (fun kv => if kv.1 = key then (kv.1, v) else kv)) k
        = if key = k then (jsGet m k).map (fun _ => v) else jsGet m k :=
      jsGet_mapUpdate (fun _ => v) key m k
    rw [h']
    by_cases h : key = k
    · subst h
      obtain ⟨w, hw⟩ := (hasKey_true_iff m key).mp hk
      simp [hw]
    · simp [h]
  · rw [if_neg hk, jsGet_append]
    have hnone : jsGet m key = none := jsGet_eq_none_of_hasKey_false (by simpa using hk)
    rw [jsGet_cons]
    by_cases h : key = k
    · subst h
      simp [hnone, jsGet_nil]
    · rw [if_neg h, if_neg h]
      cases hg : jsGet m k <;> simp [jsGet_nil, hg]

theorem keys_jsSet (m : List (String × α)) (key : String) (v : α) :
    (jsSet m key v).map (·.1)
      = if hasKey m key then m.map (·.1) else m.map (·.1) ++ [key] := by
  unfold jsSet
  by_cases hk : hasKey m key
  · rw [if_pos hk, if_pos hk]
    exact keys_mapUpdate (fun _ => v) key m
  · simp [hk]

/-! ## Characterisation of the report builder's three `forEach` phases -/

theorem lastWith_prop {q : α → Bool} : ∀ {l : List α} {y : α}, lastWith q l = some y → q y = true := by
  intro l
  induction l with
  | nil => intro y h; simp [lastWith] at h
  | cons x xs ih =>
    intro y h
    unfold lastWith at h
    cases hl : lastWith q xs with
    | some z => rw [hl] at h; cases h; exact ih hl
    | none =>
      rw [hl] at h
      by_cases hq : q x
      · rw [if_pos hq] at h; cases h; exact hq
      · rw [if_neg hq] at h; cases h

theorem lastWith_ne_none {q : α → Bool} : ∀ {l : List α}, (∃ x ∈ l, q x = true) → lastWith q l ≠ none := by
  intro l
  induction l with
  | nil => rintro ⟨x, hx, _⟩; cases hx
  | cons x xs ih =>
    rintro ⟨z, hz, hq⟩
    unfold lastWith
    cases hl : lastWith q xs with
    | some y => simp
    | none =>
      rcases List.mem_cons.mp hz with h | h
      · subst h; rw [if_pos hq]; simp
      · exact absurd hl (ih ⟨z, h, hq⟩)

theorem buildPM_get_general (ps : List SnapshotProject) (m : List (String × Agg)) (k : String) :
    jsGet (ps.foldl (fun map project => jsSet map project.id (initAgg project)) m) k
      = match lastWith (fun p => p.id = k) ps with
        | some p => some (initAgg p)
        | none => jsGet m k := by
  induction ps generalizing m with
  | nil => simp [lastWith]
  | cons p rest ih =>
    rw [List.foldl_cons, ih]
    cases hl : lastWith (fun p => decide (p.id = k)) rest with
    | some q => simp [lastWith, hl]
    | none =>
      simp only [lastWith, hl]
      by_cases h : p.id = k <;> simp [h, jsGet_jsSet]

theorem buildPM_get (ps : List SnapshotProject) (k : String) :
    jsGet (buildProjectMap ps) k
      = match lastWith (fun p => p.id = k) ps with
        | some p => some (initAgg p)
        | none => none := by
  unfold buildProjectMap
  rw [buildPM_get_general]
  cases lastWith (fun p => decide (p.id = k)) ps <;> simp [jsGet_nil]

theorem hasKey_eq_keys_any (m : List (String × α)) (k : String) :
    hasKey m k = (m.map (·.1)).any (fun s => s = k) := by
  induction m with
  | nil => rfl
  | cons kv rest ih => rw [List.map_cons, List.any_cons, hasKey_cons, ih]

theorem buildPM_keys_general (ps : List SnapshotProject) (m : List (String × Agg)) :
    (ps.foldl (fun map project => jsSet map project.id (initAgg project)) m).map (·.1)
      = m.map (·.1) ++ newKeys (m.map (·.1)) (ps.map (·.id)) := by
  induction ps generalizing m with
  | nil => simp [newKeys]
  | cons p rest ih =>
    rw [List.foldl_cons, ih, keys_jsSet]
    have hk : hasKey m p.id = (m.map (·.1)).any (fun s => s = p.id) :=
      hasKey_eq_keys_any m p.id
    by_cases h : hasKey m p.id
    · rw [if_pos h]
      have : (m.map (·.1)).any (fun s => s = p.id) = true := hk ▸ h
      simp [newKeys, this]
    · rw [if_neg h]
      have : (m.map (·.1)).any (fun s => s = p.id) = false := by
        rw [← hk]; simpa using h
      simp [newKeys, this, List.append_assoc]

theorem buildPM_keys (ps : List SnapshotProject) :
    (buildProjectMap ps).map (·.1) = newKeys [] (ps.map (·.id)) := by
  unfold buildProjectMap
  rw [buildPM_keys_general]
  simp

theorem jsGet_addBranch (m : List (String × Agg)) (b : Branch) (k : String) :
    jsGet (addBranch m b) k
      = if b.projectId = k
        then (jsGet m k).map (fun a => { a with branches := a.branches ++ [b.name] })
        else jsGet m k := by
  unfold addBranch
  by_cases hk : hasKey m b.projectId
  · rw [if_pos hk]
    exact jsGet_mapUpdate (fun a => { a with branches := a.branches ++ [b.name] }) b.projectId m k
  · rw [if_neg hk]
    by_cases h : b.projectId = k
    · subst h
      rw [if_pos rfl, jsGet_eq_none_of_hasKey_false (by simpa using hk)]
      rfl
    · rw [if_neg h]

theorem keys_addBranch (m : List (String × Agg)) (b : Branch) :
    (addBranch m b).map (·.1) = m.map (·.1) := by
  unfold addBranch
  by_cases hk : hasKey m b.projectId
  · rw [if_pos hk]
    exact keys_mapUpdate (fun a => { a with branches := a.branches ++ [b.name] }) b.projectId m
  · rw [if_neg hk]

theorem specBranchNames_cons (b : Branch) (bs : List Branch) (k : String) :
    specBranchNames (b :: bs) k
      = if b.projectId = k then b.name :: specBranchNames bs k else specBranchNames bs k := by
  by_cases h : b.projectId = k <;> simp [specBranchNames, List.filter_cons, h]

theorem jsGet_addBranches (bs : List Branch) (m : List (String × Agg)) (k : String) :
    jsGet (addBranches m bs) k
      = (jsGet m k).map (fun a => { a with branches := a.branches ++ specBranchNames bs k }) := by
  induction bs generalizing m with
  | nil =>
    cases hg : jsGet m k with
    | none => simp [addBranches, hg]
    | some a =>
      cases a
      simp [addBranches, hg, specBranchNames]
  | cons b rest ih =>
    have hstep : addBranches m (b :: rest) = addBranches (addBranch m b) rest := rfl
    rw [hstep, ih, jsGet_addBranch, specBranchNames_cons]
    by_cases h : b.projectId = k
    · rw [if_pos h, if_pos h]
      cases hg : jsGet m k with
      | none => rfl
      | some a => cases a; simp [List.append_assoc]
    · rw [if_neg h, if_neg h]

theorem keys_addBranches (bs : List Branch) (m : List (String × Agg)) :
    (addBranches m bs).map (·.1) = m.map (·.1) := by
  induction bs generalizing m with
  | nil => rfl
  | cons b rest ih =>
    have hstep : addBranches m (b :: rest) = addBranches (addBranch m b) rest := rfl
    rw [hstep, ih, keys_addBranch]

theorem jsGet_addDetail (m : List (String × Agg)) (d : Detail) (k : String) :
    jsGet (addDetail m d) k
      = if d.projectId = k then (jsGet m k).map (fun a => aggAddDetail a d) else jsGet m k := by
  unfold addDetail
  by_cases hk : hasKey m d.projectId
  · rw [if_pos hk]
    exact jsGet_mapUpdate (fun a => aggAddDetail a d) d.projectId m k
  · rw [if_neg hk]
    by_cases h : d.projectId = k
    · subst h
      rw [if_pos rfl, jsGet_eq_none_of_hasKey_false (by simpa using hk)]
      rfl
    · rw [if_neg h]

theorem keys_addDetail (m : List (String × Agg)) (d : Detail) :
    (addDetail m d).map (·.1) = m.map (·.1) := by
  unfold addDetail
  by_cases hk : hasKey m d.projectId
  · rw [if_pos hk]
    exact keys_mapUpdate (fun a => aggAddDetail a d) d.projectId m
  · rw [if_neg hk]

theorem jsGet_addDetails (ds : List Detail) (m : List (String × Agg)) (k : String) :
    jsGet (addDetails m ds) k
      = (jsGet m k).map (fun a =>
          { a with
            users := a.users
              ++ (ds.filter (fun d => d.projectId = k && d.userType = "User")).map
                  (fun d => ⟨d.name, d.email, "Individual User"⟩),
            groups := a.groups
              ++ (ds.filter (fun d => d.projectId = k && d.userType = "GroupName")).map
                  (fun d => ⟨d.name, "Group"⟩) }) := by
  induction ds generalizing m with
  | nil =>
    cases hg : jsGet m k with
    | none => simp [addDetails, hg]
    | some a =>
      cases a
      simp [addDetails, hg]
  | cons d rest ih =>
    have hstep : addDetails m (d :: rest) = addDetails (addDetail m d) rest := rfl
    rw [hstep, ih, jsGet_addDetail]
    by_cases hp : d.projectId = k
    · rw [if_pos hp]
      cases hg : jsGet m k with
      | none => simp
      | some a =>
        cases a
        by_cases hu : d.userType = "User"
        · simp [aggAddDetail, hu, List.filter_cons, hp, List.append_assoc]
        · by_cases hgr : d.userType = "GroupName" <;>
            simp [aggAddDetail, hu, hgr, List.filter_cons, hp, List.append_assoc]
    · rw [if_neg hp]
      simp [List.filter_cons, hp]

theorem keys_addDetails (ds : List Detail) (m : List (String × Agg)) :
    (addDetails m ds).map (·.1) = m.map (·.1) := by
  induction ds generalizing m with
  | nil => rfl
  | cons d rest ih =>
    have hstep : addDetails m (d :: rest) = addDetails (addDetail m d) rest := rfl
    rw [hstep, ih, keys_addDetail]

theorem jsGet_appInner (pm : List (String × Agg)) (nm : String) (pids : List String)
    (am : List (String × String)) (k : String) :
    jsGet (pids.foldl (fun appMap projectId =>
        if hasKey pm projectId then jsSet appMap projectId nm else appMap) am) k
      = if pids.any (fun pid => pid = k) && hasKey pm k then some nm else jsGet am k := by
  induction pids generalizing am with
  | nil => simp
  | cons pid rest ih =>
    rw [List.foldl_cons, ih]
    by_cases hp : pid = k
    · subst hp
      by_cases hm : hasKey pm pid
      · rw [if_pos hm, jsGet_jsSet]
        by_cases hr : rest.any (fun p => p = pid) <;> simp [hr, hm]
      · rw [if_neg hm]
        simp [hm]
    · by_cases hm : hasKey pm pid
      · rw [if_pos hm]
        have : jsGet (jsSet am pid nm) k = jsGet am k := by
          rw [jsGet_jsSet, if_neg hp]
        rw [this]
        simp [hp]
      · rw [if_neg hm]
        simp [hp]

theorem jsGet_buildAppMap_general (apps : List Application) (pm : List (String × Agg))
    (am : List (String × String)) (k : String) :
    jsGet (apps.foldl (fun appMap application =>
        application.projects.foldl (fun appMap projectId =>
          if hasKey pm projectId then jsSet appMap projectId application.name else appMap) appMap)
        am) k
      = match lastWith (fun a => a.projects.any (fun pid => pid = k)) apps with
        | some a => if hasKey pm k then some a.name else jsGet am k
        | none => jsGet am k := by
  induction apps generalizing am with
  | nil => simp [lastWith]
  | cons a rest ih =>
    rw [List.foldl_cons, ih]
    cases hl : lastWith (fun a : Application => a.projects.any (fun pid => decide (pid = k))) rest with
    | some a' =>
      simp only [lastWith, hl]
      by_cases hm : hasKey pm k
      · simp [hm]
      · simp only [hm, if_neg, Bool.false_eq_true, if_false]
        rw [jsGet_appInner]
        simp [hm]
    | none =>
      simp only [lastWith, hl]
      rw [jsGet_appInner]
      by_cases hq : a.projects.any (fun pid => pid = k)
      · by_cases hm : hasKey pm k <;> simp [hq, hm]
      · simp [hq]

theorem jsGet_buildAppMap (apps : List Application) (pm : List (String × Agg)) (k : String) :
    jsGet (buildApplicationMap apps pm) k
      = match lastWith (fun a => a.projects.any (fun pid => pid = k)) apps with
        | some a => if hasKey pm k then some a.name else none
        | none => none := by
  unfold buildApplicationMap
  rw [jsGet_buildAppMap_general]
  cases lastWith (fun a : Application => a.projects.any (fun pid => decide (pid = k))) apps <;>
    simp [jsGet_nil]

/-! ## The keys of the project map are the first-seen project ids, without duplicates -/

theorem mem_newKeys_sub {x : String} : ∀ {ks seen : List String}, x ∈ newKeys seen ks → x ∈ ks := by
  intro ks
  induction ks with
  | nil => intro seen h; simp [newKeys] at h
  | cons k rest ih =>
    intro seen h
    unfold newKeys at h
    by_cases hs : seen.any (fun s => s = k)
    · rw [if_pos hs] at h
      exact List.mem_cons_of_mem _ (ih h)
    · rw [if_neg hs] at h
      rcases List.mem_cons.mp h with h | h
      · subst h; exact List.mem_cons_self _ _
      · exact List.mem_cons_of_mem _ (ih h)

theorem mem_newKeys_not_seen {x : String} :
    ∀ {ks seen : List String}, x ∈ newKeys seen ks → x ∉ seen := by
  intro ks
  induction ks with
  | nil => intro seen h; simp [newKeys] at h
  | cons k rest ih =>
    intro seen h
    unfold newKeys at h
    by_cases hs : seen.any (fun s => s = k)
    · rw [if_pos hs] at h
      exact ih h
    · rw [if_neg hs] at h
      rcases List.mem_cons.mp h with h | h
      · subst h
        intro hmem
        have : seen.any (fun s => s = x) = true :=
          List.any_eq_true.mpr ⟨x, hmem, by simp⟩
        exact absurd this (by simpa using hs)
      · intro hmem
        exact absurd (List.mem_append_left [k] hmem) (ih h)

theorem newKeys_nodup : ∀ (ks seen : List String), (newKeys seen ks).Nodup := by
  intro ks
  induction ks with
  | nil => intro seen; simp [newKeys]
  | cons k rest ih =>
    intro seen
    unfold newKeys
    by_cases hs : seen.any (fun s => s = k)
    · rw [if_pos hs]; exact ih seen
    · rw [if_neg hs]
      refine List.nodup_cons.mpr ⟨?_, ih (seen ++ [k])⟩
      intro hmem
      exact absurd (List.mem_append_right seen (List.mem_singleton.mpr rfl))
        (mem_newKeys_not_seen hmem)

theorem jsGet_some_mem_keys {m : List (String × α)} {k : String} {v : α}
    (h : jsGet m k = some v) : k ∈ m.map (·.1) := by
  induction m with
  | nil => simp [jsGet_nil] at h
  | cons kv rest ih =>
    obtain ⟨k₀, v₀⟩ := kv
    rw [jsGet_cons] at h
    by_cases h₀ : k₀ = k
    · subst h₀; exact List.mem_cons_self _ _
    · rw [if_neg h₀] at h
      exact List.mem_cons_of_mem _ (ih h)

theorem hasKey_of_mem_keys {m : List (String × α)} {k : String}
    (h : k ∈ m.map (·.1)) : hasKey m k = true := by
  rw [hasKey_eq_keys_any]
  exact List.any_eq_true.mpr ⟨k, h, by simp⟩

theorem vals_eq_map_keys (m : List (String × Agg)) (F : String → Agg)
    (hnd : (m.map (·.1)).Nodup) (hF : ∀ k v, jsGet m k = some v → v = F k) :
    m.map (·.2) = (m.map (·.1)).map F := by
  induction m with
  | nil => rfl
  | cons kv rest ih =>
    obtain ⟨k₀, v₀⟩ := kv
    simp only [List.map_cons]
    have h₀ : jsGet ((k₀, v₀) :: rest) k₀ = some v₀ := by
      rw [jsGet_cons]; simp
    have hk₀ : k₀ ∉ rest.map (·.1) := (List.nodup_cons.mp (by simpa using hnd)).1
    have hnd' : (rest.map (·.1)).Nodup := (List.nodup_cons.mp (by simpa using hnd)).2
    congr 1
    · exact hF k₀ v₀ h₀
    apply ih hnd'
    intro k v hkv
    have hne : k₀ ≠ k := by
      intro he
      subst he
      exact hk₀ (jsGet_some_mem_keys hkv)
    apply hF k v
    rw [jsGet_cons, if_neg hne]
    exact hkv

theorem projectMap_get (ps : List SnapshotProject) (ds : List Detail) (bs : List Branch)
    (k : String) :
    jsGet (addDetails (addBranches (buildProjectMap ps) bs) ds) k
      = match lastWith (fun p => p.id = k) ps with
        | some _ => some (specAgg ps ds bs k)
        | none => none := by
  rw [jsGet_addDetails, jsGet_addBranches, buildPM_get]
  cases hl : lastWith (fun p => decide (p.id = k)) ps with
  | none => simp
  | some p => simp [specAgg, hl, initAgg]

/-- The full characterisation of `combineDataAndGenerateCsv`: one block of rows
per first-seen project id, in snapshot insertion order; inside a block all user
rows then all group rows, in detail-snapshot order; fields as produced by
`specRowsFor`. -/
theorem combine_rows_eq (ps : List SnapshotProject) (ds : List Detail) (bs : List Branch)
    (apps : List Application) :
    combineDataAndGenerateCsv ps ds bs apps
      = (newKeys [] (ps.map (·.id))).flatMap (specRowsFor apps ps ds bs) := by
  have hpm : combineDataAndGenerateCsv ps ds bs apps
      = ((addDetails (addBranches (buildProjectMap ps) bs) ds).map (·.2)).flatMap
          (rowsFor (buildApplicationMap apps (addDetails (addBranches (buildProjectMap ps) bs) ds))) :=
    rfl
  rw [hpm]
  have hkeys : (addDetails (addBranches (buildProjectMap ps) bs) ds).map (·.1)
      = newKeys [] (ps.map (·.id)) := by
    rw [keys_addDetails, keys_addBranches, buildPM_keys]
  have hvals : (addDetails (addBranches (buildProjectMap ps) bs) ds).map (·.2)
      = ((addDetails (addBranches (buildProjectMap ps) bs) ds).map (·.1)).map
          (specAgg ps ds bs) := by
    apply vals_eq_map_keys
    · rw [hkeys]
      exact newKeys_nodup _ _
    · intro k v hkv
      rw [projectMap_get] at hkv
      cases hl : lastWith (fun p => decide (p.id = k)) ps with
      | none => rw [hl] at hkv; cases hkv
      | some p =>
        rw [hl] at hkv
        exact (Option.some.inj hkv).symm
  rw [hvals, hkeys, List.flatMap_map]
  apply List.flatMap_congr
  intro k hk
  have hmemids : k ∈ ps.map (·.id) := mem_newKeys_sub hk
  obtain ⟨p₀, hp₀, hid⟩ := List.mem_map.mp hmemids
  have hex : ∃ x ∈ ps, (fun p : SnapshotProject => decide (p.id = k)) x = true :=
    ⟨p₀, hp₀, by simp [hid]⟩
  cases hl : lastWith (fun p : SnapshotProject => decide (p.id = k)) ps with
  | none => exact absurd hl (lastWith_ne_none hex)
  | some p =>
    have hpk : p.id = k := by simpa using lastWith_prop hl
    have hhk : hasKey (addDetails (addBranches (buildProjectMap ps) bs) ds) k = true :=
      hasKey_of_mem_keys (hkeys ▸ hk)
    have happ : jsOrString
        (jsGet (buildApplicationMap apps (addDetails (addBranches (buildProjectMap ps) bs) ds)) k)
        "No Application Name" = specAppName apps k := by
      rw [jsGet_buildAppMap]
      cases hla : lastWith (fun a : Application => a.projects.any fun pid => decide (pid = k)) apps with
      | none => simp [specAppName, hla, jsOrString]
      | some a' => simp [specAppName, hla, jsOrString, hhk]
    simp only [specRowsFor, specAgg, rowsFor, hl, hpk, happ, List.map_map]
    rfl

/-! ## Helper lemmas for the claims -/

theorem lastWith_eq_none {q : α → Bool} : ∀ {l : List α}, (∀ x ∈ l, q x = false) → lastWith q l = none := by
  intro l
  induction l with
  | nil => intro _; rfl
  | cons x xs ih =>
    intro h
    unfold lastWith
    rw [ih (fun z hz => h z (List.mem_cons_of_mem _ hz))]
    rw [h x (List.mem_cons_self _ _)]
    rfl

theorem padFive_eq_getD : ∀ l : List String,
    padFive l = [l.getD 0 "", l.getD 1 "", l.getD 2 "", l.getD 3 "", l.getD 4 ""]
  | [] => rfl
  | [_] => rfl
  | [_, _] => rfl
  | [_, _, _] => rfl
  | [_, _, _, _] => rfl
  | _ :: _ :: _ :: _ :: _ :: _ => rfl

theorem fetchOffsets_spec {ρ : Type} (limit : Nat) (t : Page ρ) (post : List (Page ρ))
    (ht : ¬(t.status = 200 ∧ t.data.length = limit)) :
    ∀ (pre : List (Page ρ)) (s : Nat), (∀ p ∈ pre, p.status = 200 ∧ p.data.length = limit) →
      fetchOffsets limit s (pre ++ t :: post)
        = (List.range (pre.length + 1)).map (fun i => s + i * limit) := by
  intro pre
  induction pre with
  | nil =>
    intro s _
    simp only [List.nil_append, fetchOffsets]
    rw [if_neg ht]
    simp [List.range_succ]
  | cons p rest ih =>
    intro s hpre
    have hp := hpre p (List.mem_cons_self _ _)
    simp only [List.cons_append, fetchOffsets, List.append_eq]
    rw [if_pos hp, ih (s + limit) (fun q hq => hpre q (List.mem_cons_of_mem _ hq))]
    have hr : (List.range ((p :: rest).length + 1)).map (fun i => s + i * limit)
        = s :: (List.range (rest.length + 1)).map (fun i => s + limit + i * limit) := by
      rw [List.length_cons, List.range_succ_eq_map]
      simp only [List.map_cons, List.map_map, Nat.zero_mul, Nat.add_zero]
      congr 1
      apply List.map_congr_left
      intro i _
      simp only [Function.comp_apply, Nat.succ_mul]
      omega
    rw [hr]

theorem fetchLoop_spec {ρ α : Type} (limit : Nat) (format : ρ → α) (t : Page ρ)
    (post : List (Page ρ)) (ht : ¬(t.status = 200 ∧ t.data.length = limit)) :
    ∀ pre : List (Page ρ), (∀ p ∈ pre, p.status = 200 ∧ p.data.length = limit) →
      fetchLoop limit format (pre ++ t :: post)
        = (pre.map (fun p => p.data.map format)).flatten
            ++ (if t.status = 200 then t.data.map format else []) := by
  intro pre
  induction pre with
  | nil =>
    intro _
    simp only [List.nil_append, fetchLoop, List.map_nil, List.flatten_nil, List.nil_append]
    by_cases hs : t.status = 200
    · have hlen : ¬ t.data.length = limit := fun hh => ht ⟨hs, hh⟩
      rw [if_pos hs, if_neg hlen, if_pos hs]
    · rw [if_neg hs, if_neg hs]
  | cons p rest ih =>
    intro hpre
    have hp := hpre p (List.mem_cons_self _ _)
    simp only [List.cons_append, fetchLoop, List.append_eq]
    rw [if_pos hp.1, if_pos hp.2, ih (fun q hq => hpre q (List.mem_cons_of_mem _ hq))]
    simp [List.append_assoc]

theorem mem_combine_spec {ps : List SnapshotProject} {ds : List Detail} {bs : List Branch}
    {apps : List Application} {r : Row}
    (hr : r ∈ combineDataAndGenerateCsv ps ds bs apps) :
    ∃ k, k ∈ ps.map (·.id)
      ∧ r.projectId = k
      ∧ r.applicationName = specAppName apps k
      ∧ r.branchName1 = (specBranchNames bs k).getD 0 ""
      ∧ r.branchName2 = (specBranchNames bs k).getD 1 ""
      ∧ r.branchName3 = (specBranchNames bs k).getD 2 ""
      ∧ r.branchName4 = (specBranchNames bs k).getD 3 ""
      ∧ r.branchName5 = (specBranchNames bs k).getD 4 "" := by
  rw [combine_rows_eq] at hr
  obtain ⟨k, hk, hrk⟩ := List.mem_flatMap.mp hr
  refine ⟨k, mem_newKeys_sub hk, ?_⟩
  unfold specRowsFor at hrk
  cases hl : lastWith (fun p : SnapshotProject => decide (p.id = k)) ps with
  | none => rw [hl] at hrk; cases hrk
  | some p =>
    rw [hl] at hrk
    have hpk : p.id = k := by simpa using lastWith_prop hl
    rw [padFive_eq_getD] at hrk
    rcases List.mem_append.mp hrk with h | h <;>
      obtain ⟨d, _, rfl⟩ := List.mem_map.mp h <;>
      exact ⟨hpk, rfl, rfl, rfl, rfl, rfl, rfl⟩

theorem foldl_append_flatMap (g : α → List β) :
    ∀ (ps : List α) (acc : List β),
      ps.foldl (fun acc x => acc ++ g x) acc = acc ++ ps.flatMap g := by
  intro ps
  induction ps with
  | nil => intro acc; simp
  | cons x xs ih =>
    intro acc
    rw [List.foldl_cons, ih, List.flatMap_cons, List.append_assoc]

theorem fetchRoleAssignments_flat (server : String → RoleResponse)
    (allProjects : List PipelineProject) :
    fetchRoleAssignments server allProjects
      = allProjects.flatMap (fun project =>
          if (server project.id).status = 200 then roleDetailsFor project (server project.id)
          else []) := by
  unfold fetchRoleAssignments
  have hfun : (fun (allDetails : List Detail) project =>
      if (server project.id).status = 200 then allDetails ++ roleDetailsFor project (server project.id)
      else allDetails)
      = (fun (allDetails : List Detail) project => allDetails
          ++ (if (server project.id).status = 200 then roleDetailsFor project (server project.id)
              else [])) := by
    funext acc project
    by_cases h : (server project.id).status = 200 <;> simp [h]
  rw [hfun, foldl_append_flatMap]
  simp

/-! ## Claim theorems -/

/-- C1 (counterexample to the claim as stated): the fetcher does not keep
requesting "exactly until a returned page's item count is strictly less than the
requested page size or the server returns a non-success status". With page size 2,
a successful first page carrying 3 items (not strictly less than 2) makes the loop
stop after a single request at offset 0, even though a further full page was
available: the stop condition compares for inequality, not for "strictly less". -/
theorem C1_counterexample :
    fetchOffsets 2 0 [(⟨200, [10, 11, 12]⟩ : Page Nat), ⟨200, [13, 14]⟩] = [0]
      ∧ fetchLoop 2 (fun x : Nat => x) [(⟨200, [10, 11, 12]⟩ : Page Nat), ⟨200, [13, 14]⟩]
          = [10, 11, 12]
      ∧ (⟨200, [10, 11, 12]⟩ : Page Nat).status = 200
      ∧ ¬ (⟨200, [10, 11, 12]⟩ : Page Nat).data.length < 2 := by
  decide

/-- C1 (amended): for every paginated fetch run against a response trace made of
`pre` full successful pages followed by a terminating page `t` (one whose item
count differs from the page size, or whose status is not 200), the fetcher starts
at offset 0, advances the offset by the page size after each successful page, and
requests exactly `pre.length + 1` pages; on a non-success status it stops and
keeps the items already accumulated (a valid partial result, not an error); the
accumulated item count equals the sum of the lengths of all successfully received
pages. -/
theorem C1_pagination {ρ α : Type} (limit : Nat) (format : ρ → α)
    (pre : List (Page ρ)) (t : Page ρ) (post : List (Page ρ))
    (hpre : ∀ p ∈ pre, p.status = 200 ∧ p.data.length = limit)
    (ht : ¬(t.status = 200 ∧ t.data.length = limit)) :
    fetchOffsets limit 0 (pre ++ t :: post)
        = (List.range (pre.length + 1)).map (fun i => i * limit)
      ∧ fetchLoop limit format (pre ++ t :: post)
        = (pre.map (fun p => p.data.map format)).flatten
            ++ (if t.status = 200 then t.data.map format else [])
      ∧ (fetchLoop limit format (pre ++ t :: post)).length
        = (pre.map (fun p => p.data.length)).sum
            + (if t.status = 200 then t.data.length else 0) := by
  refine ⟨?_, fetchLoop_spec limit format t post ht pre hpre, ?_⟩
  · rw [fetchOffsets_spec limit t post ht pre 0 hpre]
    apply List.map_congr_left
    intro i _
    omega
  · rw [fetchLoop_spec limit format t post ht pre hpre]
    have hsum : (List.map (List.length ∘ fun p => List.map format p.data) pre).sum
        = (List.map (fun p => p.data.length) pre).sum := by
      congr 1
      apply List.map_congr_left
      intro p _
      simp
    by_cases hs : t.status = 200 <;>
      simp [hs, List.length_append, List.length_flatten, List.map_map, Function.comp, hsum]

/-- Witness for C1 at a concrete trace: one full page of 2 then a short page. -/
theorem C1_pagination_witness :
    (∀ p ∈ [(⟨200, [1, 2]⟩ : Page Nat)], p.status = 200 ∧ p.data.length = 2)
      ∧ ¬((⟨200, [3]⟩ : Page Nat).status = 200 ∧ (⟨200, [3]⟩ : Page Nat).data.length = 2)
      ∧ fetchOffsets 2 0 ([(⟨200, [1, 2]⟩ : Page Nat)] ++ (⟨200, [3]⟩ : Page Nat) :: [])
          = (List.range ([(⟨200, [1, 2]⟩ : Page Nat)].length + 1)).map (fun i => i * 2) :=
  ⟨by decide, by decide,
   (C1_pagination 2 (fun x : Nat => x) [⟨200, [1, 2]⟩] ⟨200, [3]⟩ [] (by decide) (by decide)).1⟩

/-- C2 (counterexample to the claim as stated): the projects fetch in
`getProjectProperties.mjs` uses page size 5, not 500. -/
theorem C2_counterexample :
    projectPropertiesPageLimit = 5 ∧ projectPropertiesPageLimit ≠ 500 := by
  decide

/-- C2 (amended): the page size is a per-resource, per-script parameter: 25 for
the applications fetch, 500 for the projects fetch of the user-information script
and of the all-in-one main, 500 for the branches fetch, but 5 for the projects
fetch of the project-properties script. -/
theorem C2_page_limits :
    applicationsPageLimit = 25
      ∧ userInformationProjectsPageLimit = 500
      ∧ mainProjectsPageLimit = 500
      ∧ branchesPageLimit = 500
      ∧ projectPropertiesPageLimit = 5 := by
  decide

/-- C3 (counterexample to the claim as stated): a non-empty password does not
always send the request to the password endpoint — the guard trims the password
first, so a whitespace-only (non-empty) password together with an access token
routes the request to the v2 token endpoint. -/
theorem C3_counterexample :
    (⟨"acme", "a@x.com", " ", "tok", "v1", "v2", "", "", ""⟩ : Config).password ≠ ""
      ∧ buildAuthConfig ⟨"acme", "a@x.com", " ", "tok", "v1", "v2", "", "", ""⟩
          = .ok ⟨authUrlV2 ⟨"acme", "a@x.com", " ", "tok", "v1", "v2", "", "", ""⟩,
                 [("email", "a@x.com"), ("accesstoken", "tok")]⟩
      ∧ authUrl ⟨"acme", "a@x.com", " ", "tok", "v1", "v2", "", "", ""⟩
          ≠ authUrlV2 ⟨"acme", "a@x.com", " ", "tok", "v1", "v2", "", "", ""⟩ :=
  ⟨by decide, rfl, by decide⟩

/-- C3 (amended): for every credentials configuration, a present password (one
that is non-empty after trimming, which is the scripts' presence test) sends the
authentication request to the v1 password endpoint — never the v2 token endpoint
when the two differ; otherwise a present access token sends it to the v2 token
endpoint; when neither is present the authenticator fails with the configuration
error before any network call (the result is the same error for every possible
server). -/
theorem C3_auth_flow (c : Config) :
    (passwordPresent c = true →
        buildAuthConfig c = .ok ⟨authUrl c, [("email", c.email), ("password", c.password)]⟩)
      ∧ (passwordPresent c = true → authUrl c ≠ authUrlV2 c →
          ∀ req : AuthRequest, buildAuthConfig c = .ok req → req.url ≠ authUrlV2 c)
      ∧ (passwordPresent c = false → accesstokenPresent c = true →
          buildAuthConfig c
            = .ok ⟨authUrlV2 c, [("email", c.email), ("accesstoken", c.accesstoken)]⟩)
      ∧ (passwordPresent c = false → accesstokenPresent c = false →
          ∀ server : AuthRequest → AuthResponse,
            authenticate server c
              = .error "Neither password nor access token is provided in the config.") := by
  refine ⟨?_, ?_, ?_, ?_⟩
  · intro h
    simp [buildAuthConfig, h]
  · intro h hne req hok
    have h1 : buildAuthConfig c
        = .ok ⟨authUrl c, [("email", c.email), ("password", c.password)]⟩ := by
      simp [buildAuthConfig, h]
    rw [h1] at hok
    cases hok
    simpa using hne
  · intro h1 h2
    simp [buildAuthConfig, h1, h2]
  · intro h1 h2 server
    simp [authenticate, buildAuthConfig, h1, h2]

/-- Witness for C3 at three concrete configurations: password present, token-only,
and neither. -/
theorem C3_auth_flow_witness :
    passwordPresent (⟨"acme", "a@x.com", "pw", "", "v1", "v2", "", "", ""⟩ : Config) = true
      ∧ buildAuthConfig ⟨"acme", "a@x.com", "pw", "", "v1", "v2", "", "", ""⟩
          = .ok ⟨authUrl ⟨"acme", "a@x.com", "pw", "", "v1", "v2", "", "", ""⟩,
                 [("email", "a@x.com"), ("password", "pw")]⟩
      ∧ passwordPresent (⟨"acme", "a@x.com", "", "tok", "v1", "v2", "", "", ""⟩ : Config) = false
      ∧ accesstokenPresent (⟨"acme", "a@x.com", "", "tok", "v1", "v2", "", "", ""⟩ : Config) = true
      ∧ buildAuthConfig ⟨"acme", "a@x.com", "", "tok", "v1", "v2", "", "", ""⟩
          = .ok ⟨authUrlV2 ⟨"acme", "a@x.com", "", "tok", "v1", "v2", "", "", ""⟩,
                 [("email", "a@x.com"), ("accesstoken", "tok")]⟩
      ∧ authenticate (fun _ => ⟨[], "some-jwt"⟩) ⟨"acme", "a@x.com", "", "", "v1", "v2", "", "", ""⟩
          = .error "Neither password nor access token is provided in the config." :=
  ⟨by decide,
   (C3_auth_flow _).1 (by decide),
   by decide,
   by decide,
   (C3_auth_flow _).2.2.1 (by decide) (by decide),
   (C3_auth_flow _).2.2.2 (by decide) (by decide) _⟩

/-- C4: the authenticator extracts the bearer token by first checking the
`set-cookie` header path (the `access_token` cookie value) — the body's `jwt`
field is ignored whenever the header path yields a non-empty value; only when the
header path yields nothing does it fall back to the `jwt` field; when neither
yields a token it fails with the authentication error, and a stage that reaches
that failure aborts, returning the empty result. -/
theorem C4_token_extraction (resp : AuthResponse) :
    (cookieToken resp ≠ "" → extractToken resp = .ok (cookieToken resp))
      ∧ (cookieToken resp = "" → resp.jwt ≠ "" → extractToken resp = .ok resp.jwt)
      ∧ (cookieToken resp = "" → resp.jwt = "" →
          extractToken resp = .error "No access token found in the response.")
      ∧ (∀ env : AppStageEnv, env.jsonExists = false → env.csvExists = false →
          requiredAppConfigOk env.config = true →
          ∀ req : AuthRequest, buildAuthConfig env.config = .ok req →
          extractToken (env.authServer req) = .error "No access token found in the response." →
          fetchApplicationsWithAuth env = []) := by
  refine ⟨?_, ?_, ?_, ?_⟩
  · intro h
    simp [extractToken, h]
  · intro h1 h2
    simp [extractToken, h1, h2]
  · intro h1 h2
    simp [extractToken, h1, h2]
  · intro env hj hc hcfg req hok herr
    simp [fetchApplicationsWithAuth, hj, hc, hcfg, hok, herr]

/-- Witness for C4: a response carrying both a cookie token and a body `jwt`
yields the cookie value; a response with only a body `jwt` yields the `jwt`; a
response with neither fails; a stage whose authentication response carries no
token returns the empty result. -/
theorem C4_token_extraction_witness :
    cookieToken ⟨["access_token=abc; Path=/"], "jwt-in-body"⟩ = "abc"
      ∧ extractToken ⟨["access_token=abc; Path=/"], "jwt-in-body"⟩ = .ok "abc"
      ∧ cookieToken ⟨[], "jwt-in-body"⟩ = ""
      ∧ extractToken ⟨[], "jwt-in-body"⟩ = .ok "jwt-in-body"
      ∧ extractToken ⟨["session=1"], ""⟩ = .error "No access token found in the response."
      ∧ fetchApplicationsWithAuth
          ⟨false, "", false, "", ⟨"acme", "a@x.com", "pw", "", "v1", "v2", "apps", "", ""⟩,
           fun _ => ⟨[], ""⟩, []⟩ = [] := by
  refine ⟨by decide, ?_, by decide, ?_, ?_, ?_⟩
  · have h := (C4_token_extraction ⟨["access_token=abc; Path=/"], "jwt-in-body"⟩).1 (by decide)
    rw [show cookieToken ⟨["access_token=abc; Path=/"], "jwt-in-body"⟩ = "abc" from by decide] at h
    exact h
  · exact (C4_token_extraction ⟨[], "jwt-in-body"⟩).2.1 (by decide) (by decide)
  · exact (C4_token_extraction ⟨["session=1"], ""⟩).2.2.1 (by decide) (by decide)
  · exact (C4_token_extraction ⟨[], ""⟩).2.2.2
      ⟨false, "", false, "", ⟨"acme", "a@x.com", "pw", "", "v1", "v2", "apps", "", ""⟩,
       fun _ => ⟨[], ""⟩, []⟩
      rfl rfl (by decide)
      ⟨"v1", [("email", "a@x.com"), ("password", "pw")]⟩ rfl rfl

/-- C5 (counterexample to the claim as stated): a project whose id appears in an
application's project list is not always assigned that application's name — an
empty application name is falsy in `applicationMap[...] || 'No Application Name'`,
so the sentinel is emitted instead of the (empty) name. -/
theorem C5_counterexample :
    combineDataAndGenerateCsv
        [⟨"p1", "P1", "t"⟩]
        [⟨"P1", "p1", "User", "Alice", "a@x.com"⟩]
        []
        [⟨"app1", "", "d", ["p1"]⟩]
      = [⟨"No Application Name", "P1", "p1", "Individual User", "Alice", "a@x.com",
          "", "", "", "", ""⟩]
      ∧ "p1" ∈ (⟨"app1", "", "d", ["p1"]⟩ : Application).projects
      ∧ (⟨"app1", "", "d", ["p1"]⟩ : Application).name ≠ "No Application Name" := by
  decide

/-- C5 (amended): in the final report, every row of a project whose id is absent
from every application's project-id list carries the application name
"No Application Name" (never the empty string and never an error); every row of a
project whose id appears in some application's list carries the name of the last
such application — unless that name is the empty string (falsy), in which case the
sentinel is used as well. -/
theorem C5_application_name (ps : List SnapshotProject) (ds : List Detail) (bs : List Branch)
    (apps : List Application) (r : Row) (hr : r ∈ combineDataAndGenerateCsv ps ds bs apps) :
    ((∀ a ∈ apps, r.projectId ∉ a.projects) → r.applicationName = "No Application Name")
      ∧ (∀ a : Application,
          lastWith (fun a => a.projects.any (fun pid => pid = r.projectId)) apps = some a →
          r.applicationName = (if a.name = "" then "No Application Name" else a.name)) := by
  obtain ⟨k, _, hk, happ, _⟩ := mem_combine_spec hr
  subst hk
  constructor
  · intro habs
    rw [happ]
    unfold specAppName
    rw [lastWith_eq_none ?_]
    intro a ha
    cases hb : a.projects.any (fun pid => pid = r.projectId) with
    | false => rfl
    | true =>
      obtain ⟨pid, hpid, hpe⟩ := List.any_eq_true.mp hb
      have : pid = r.projectId := by simpa using hpe
      subst this
      exact absurd hpid (habs a ha)
  · intro a hla
    rw [happ]
    unfold specAppName
    rw [hla]

/-- Witness for C5 at a concrete input whose only project belongs to no
application. -/
theorem C5_application_name_witness :
    (⟨"No Application Name", "P1", "p1", "Individual User", "Alice", "a@x.com",
        "", "", "", "", ""⟩ : Row)
        ∈ combineDataAndGenerateCsv [⟨"p1", "P1", "t"⟩]
            [⟨"P1", "p1", "User", "Alice", "a@x.com"⟩] [] []
      ∧ (⟨"No Application Name", "P1", "p1", "Individual User", "Alice", "a@x.com",
          "", "", "", "", ""⟩ : Row).applicationName = "No Application Name" := by
  refine ⟨by decide, ?_⟩
  exact (C5_application_name [⟨"p1", "P1", "t"⟩] [⟨"P1", "p1", "User", "Alice", "a@x.com"⟩] [] []
    _ (by decide)).1 (by decide)

/-- C6: for every row of the final report, exactly the first 5 branch names of the
row's project (in fetch order) fill the branch-name slots: slot `i` holds the
`i`-th fetched branch name when the project has more than `i` branches and the
empty string otherwise, so a project with fewer than 5 branches leaves the
remaining slots empty and a project with more than 5 branches has only the first
5 emitted, the excess silently omitted. -/
theorem C6_branch_slots (ps : List SnapshotProject) (ds : List Detail) (bs : List Branch)
    (apps : List Application) (r : Row) (hr : r ∈ combineDataAndGenerateCsv ps ds bs apps) :
    r.branchName1 = (specBranchNames bs r.projectId).getD 0 ""
      ∧ r.branchName2 = (specBranchNames bs r.projectId).getD 1 ""
      ∧ r.branchName3 = (specBranchNames bs r.projectId).getD 2 ""
      ∧ r.branchName4 = (specBranchNames bs r.projectId).getD 3 ""
      ∧ r.branchName5 = (specBranchNames bs r.projectId).getD 4 "" := by
  obtain ⟨k, _, hk, _, h1, h2, h3, h4, h5⟩ := mem_combine_spec hr
  subst hk
  exact ⟨h1, h2, h3, h4, h5⟩

/-- Witness for C6 at a concrete project with 7 fetched branches: the row shows
the first five, the last two are omitted. -/
theorem C6_branch_slots_witness :
    (⟨"No Application Name", "P1", "p1", "Individual User", "Alice", "a@x.com",
        "b1", "b2", "b3", "b4", "b5"⟩ : Row)
        ∈ combineDataAndGenerateCsv [⟨"p1", "P1", "t"⟩]
            [⟨"P1", "p1", "User", "Alice", "a@x.com"⟩]
            [⟨"p1", "b1"⟩, ⟨"p1", "b2"⟩, ⟨"p1", "b3"⟩, ⟨"p1", "b4"⟩, ⟨"p1", "b5"⟩,
             ⟨"p1", "b6"⟩, ⟨"p1", "b7"⟩] []
      ∧ (⟨"No Application Name", "P1", "p1", "Individual User", "Alice", "a@x.com",
          "b1", "b2", "b3", "b4", "b5"⟩ : Row).branchName5
          = (specBranchNames
              [⟨"p1", "b1"⟩, ⟨"p1", "b2"⟩, ⟨"p1", "b3"⟩, ⟨"p1", "b4"⟩, ⟨"p1", "b5"⟩,
               ⟨"p1", "b6"⟩, ⟨"p1", "b7"⟩]
              (⟨"No Application Name", "P1", "p1", "Individual User", "Alice", "a@x.com",
                "b1", "b2", "b3", "b4", "b5"⟩ : Row).projectId).getD 4 "" := by
  refine ⟨by decide, ?_⟩
  exact (C6_branch_slots [⟨"p1", "P1", "t"⟩] [⟨"P1", "p1", "User", "Alice", "a@x.com"⟩]
    [⟨"p1", "b1"⟩, ⟨"p1", "b2"⟩, ⟨"p1", "b3"⟩, ⟨"p1", "b4"⟩, ⟨"p1", "b5"⟩,
     ⟨"p1", "b6"⟩, ⟨"p1", "b7"⟩] [] _ (by decide)).2.2.2.2

/-- C7: the report builder emits exactly one output row per (project, principal)
pair: one block of rows per first-seen project id in snapshot insertion order,
and within each project all user rows (type "Individual User", carrying the
principal's email) before all group rows (type "Group", empty email), each in
collector-returned (snapshot) order — `specRowsFor` spells out exactly these
rows. -/
theorem C7_rows (ps : List SnapshotProject) (ds : List Detail) (bs : List Branch)
    (apps : List Application) :
    combineDataAndGenerateCsv ps ds bs apps
      = (newKeys [] (ps.map (·.id))).flatMap (specRowsFor apps ps ds bs) :=
  combine_rows_eq ps ds bs apps

/-- Dropping the role details of unknown projects does not change the report. -/
theorem filter_known_user (ps : List SnapshotProject) (ds : List Detail) (k : String)
    (hkmem : k ∈ ps.map (·.id)) :
    ((ds.filter (fun d => (ps.map (·.id)).any (fun i => i = d.projectId))).filter
        (fun d => d.projectId = k && d.userType = "User"))
      = ds.filter (fun d => d.projectId = k && d.userType = "User") := by
  rw [List.filter_filter]
  apply List.filter_congr
  intro d _
  by_cases hp : d.projectId = k
  · obtain ⟨a, ha, haid⟩ := List.mem_map.mp hkmem
    simp [hp]
    intro _
    exact ⟨a, ha, haid⟩
  · simp [hp]

/-- Dropping the group details of unknown projects does not change the report. -/
theorem filter_known_group (ps : List SnapshotProject) (ds : List Detail) (k : String)
    (hkmem : k ∈ ps.map (·.id)) :
    ((ds.filter (fun d => (ps.map (·.id)).any (fun i => i = d.projectId))).filter
        (fun d => d.projectId = k && d.userType = "GroupName"))
      = ds.filter (fun d => d.projectId = k && d.userType = "GroupName") := by
  rw [List.filter_filter]
  apply List.filter_congr
  intro d _
  by_cases hp : d.projectId = k
  · obtain ⟨a, ha, haid⟩ := List.mem_map.mp hkmem
    simp [hp]
    intro _
    exact ⟨a, ha, haid⟩
  · simp [hp]

/-- Dropping the branches of unknown projects does not change the report. -/
theorem filter_known_branch (ps : List SnapshotProject) (bs : List Branch) (k : String)
    (hkmem : k ∈ ps.map (·.id)) :
    specBranchNames (bs.filter (fun b => (ps.map (·.id)).any (fun i => i = b.projectId))) k
      = specBranchNames bs k := by
  unfold specBranchNames
  rw [List.filter_filter]
  congr 1
  apply List.filter_congr
  intro b _
  by_cases hp : b.projectId = k
  · obtain ⟨a, ha, haid⟩ := List.mem_map.mp hkmem
    simp [hp]
    exact ⟨a, ha, haid⟩
  · simp [hp]

/-- C9: the correlator silently drops every branch record and every principal
record whose project id does not appear in the project snapshot — removing all
such records beforehand leaves the report unchanged, no error is raised, and
every output row's project id is one that occurs in the project snapshot. -/
theorem C9_unknown_dropped (ps : List SnapshotProject) (ds : List Detail) (bs : List Branch)
    (apps : List Application) :
    (∀ r ∈ combineDataAndGenerateCsv ps ds bs apps, r.projectId ∈ ps.map (·.id))
      ∧ combineDataAndGenerateCsv ps
          (ds.filter (fun d => (ps.map (·.id)).any (fun i => i = d.projectId)))
          (bs.filter (fun b => (ps.map (·.id)).any (fun i => i = b.projectId)))
          apps
        = combineDataAndGenerateCsv ps ds bs apps := by
  constructor
  · intro r hr
    obtain ⟨k, hkmem, hk, _⟩ := mem_combine_spec hr
    rw [hk]
    exact hkmem
  · rw [combine_rows_eq, combine_rows_eq]
    apply List.flatMap_congr
    intro k hk
    have hkmem : k ∈ ps.map (·.id) := mem_newKeys_sub hk
    unfold specRowsFor
    cases hl : lastWith (fun p : SnapshotProject => decide (p.id = k)) ps with
    | none => simp [hl]
    | some p =>
      simp only [hl]
      rw [filter_known_user ps ds k hkmem, filter_known_group ps ds k hkmem,
        filter_known_branch ps bs k hkmem]

/-- Witness for C9 at a concrete input carrying a branch and a detail for an
unknown project id. -/
theorem C9_unknown_dropped_witness :
    (⟨"No Application Name", "P1", "p1", "Individual User", "Alice", "a@x.com",
        "b1", "", "", "", ""⟩ : Row)
        ∈ combineDataAndGenerateCsv [⟨"p1", "P1", "t"⟩]
            [⟨"P1", "p1", "User", "Alice", "a@x.com"⟩, ⟨"G", "ghost", "User", "Bob", "b@x.com"⟩]
            [⟨"p1", "b1"⟩, ⟨"ghost", "gb"⟩] []
      ∧ (⟨"No Application Name", "P1", "p1", "Individual User", "Alice", "a@x.com",
          "b1", "", "", "", ""⟩ : Row).projectId
          ∈ ([⟨"p1", "P1", "t"⟩] : List SnapshotProject).map (·.id) := by
  refine ⟨by decide, ?_⟩
  exact (C9_unknown_dropped [⟨"p1", "P1", "t"⟩]
    [⟨"P1", "p1", "User", "Alice", "a@x.com"⟩, ⟨"G", "ghost", "User", "Bob", "b@x.com"⟩]
    [⟨"p1", "b1"⟩, ⟨"ghost", "gb"⟩] []).1 _ (by decide)

/-- C8: when a fetch stage's target artifact already exists and the user declines
the overwrite prompt, the stage returns the empty list rather than raising an
exception; and the orchestrating `main` halts every later stage of the pipeline
whenever a stage yields an empty collection. -/
theorem C8_prompts_and_short_circuit (appEnv : AppStageEnv) (projEnv : ProjectsStageEnv)
    (roleServer : String → RoleResponse) (branchEnv : BranchesStageEnv) :
    (appEnv.jsonExists = true → answerYes appEnv.jsonAnswer = false →
        fetchApplicationsWithAuth appEnv = [])
      ∧ (appEnv.csvExists = true → answerYes appEnv.csvAnswer = false →
          fetchApplicationsWithAuth appEnv = [])
      ∧ (branchEnv.jsonExists = true → answerYes branchEnv.jsonAnswer = false →
          fetchBranchesWithAuth branchEnv = [])
      ∧ (fetchApplicationsWithAuth appEnv = [] →
          mainRun appEnv projEnv roleServer branchEnv = [.fetchApplications])
      ∧ (fetchApplicationsWithAuth appEnv ≠ [] → fetchProjectsWithAuth projEnv = [] →
          mainRun appEnv projEnv roleServer branchEnv = [.fetchApplications, .fetchProjects])
      ∧ (fetchApplicationsWithAuth appEnv ≠ [] → fetchProjectsWithAuth projEnv ≠ [] →
          fetchRoleAssignments roleServer (fetchProjectsWithAuth projEnv) = [] →
          mainRun appEnv projEnv roleServer branchEnv
            = [.fetchApplications, .fetchProjects, .fetchRoles])
      ∧ (fetchApplicationsWithAuth appEnv ≠ [] → fetchProjectsWithAuth projEnv ≠ [] →
          fetchRoleAssignments roleServer (fetchProjectsWithAuth projEnv) ≠ [] →
          fetchBranchesWithAuth branchEnv = [] →
          mainRun appEnv projEnv roleServer branchEnv
            = [.fetchApplications, .fetchProjects, .fetchRoles, .fetchBranches]) := by
  refine ⟨?_, ?_, ?_, ?_, ?_, ?_, ?_⟩
  · intro h1 h2
    simp [fetchApplicationsWithAuth, h1, h2]
  · intro h1 h2
    by_cases hj : (appEnv.jsonExists && !(answerYes appEnv.jsonAnswer)) = true
    · simp [fetchApplicationsWithAuth, hj]
    · simp [fetchApplicationsWithAuth, hj, h1, h2]
  · intro h1 h2
    simp [fetchBranchesWithAuth, h1, h2]
  · intro h
    simp [mainRun, h]
  · intro h1 h2
    simp [mainRun, List.length_eq_zero, h1, h2]
  · intro h1 h2 h3
    simp [mainRun, List.length_eq_zero, h1, h2, h3]
  · intro h1 h2 h3 h4
    simp [mainRun, List.length_eq_zero, h1, h2, h3, h4]

/-- Witness for C8: declining the overwrite prompt of the applications stage
produces the empty result and the pipeline stops after that stage. -/
theorem C8_prompts_and_short_circuit_witness :
    answerYes "no" = false
      ∧ fetchApplicationsWithAuth
          ⟨true, "no", false, "", ⟨"", "", "", "", "", "", "", "", ""⟩, fun _ => ⟨[], ""⟩, []⟩ = []
      ∧ mainRun
          ⟨true, "no", false, "", ⟨"", "", "", "", "", "", "", "", ""⟩, fun _ => ⟨[], ""⟩, []⟩
          ⟨true, [], ⟨"", "", "", "", "", "", "", "", ""⟩, fun _ => ⟨[], ""⟩, []⟩
          (fun _ => ⟨500, []⟩)
          ⟨false, "", ⟨"", "", "", "", "", "", "", "", ""⟩, fun _ => ⟨[], ""⟩, []⟩
        = [Stage.fetchApplications] := by
  have h := (C8_prompts_and_short_circuit
    ⟨true, "no", false, "", ⟨"", "", "", "", "", "", "", "", ""⟩, fun _ => ⟨[], ""⟩, []⟩
    ⟨true, [], ⟨"", "", "", "", "", "", "", "", ""⟩, fun _ => ⟨[], ""⟩, []⟩
    (fun _ => ⟨500, []⟩)
    ⟨false, "", ⟨"", "", "", "", "", "", "", "", ""⟩, fun _ => ⟨[], ""⟩, []⟩)
  have hempty := h.1 rfl (by decide)
  exact ⟨by decide, hempty, h.2.2.2.1 hempty⟩

/-- C10: during the role-assignments stage a non-success response for one
project's request does not stop the stage: the failing project contributes no
principal records and the loop continues with every remaining project, returning
the details accumulated from all successful requests. -/
theorem C10_role_error_isolation (server : String → RoleResponse)
    (pre : List PipelineProject) (p : PipelineProject) (post : List PipelineProject)
    (hfail : (server p.id).status ≠ 200) :
    fetchRoleAssignments server (pre ++ p :: post)
      = fetchRoleAssignments server pre ++ fetchRoleAssignments server post := by
  rw [fetchRoleAssignments_flat, fetchRoleAssignments_flat, fetchRoleAssignments_flat,
    List.flatMap_append, List.flatMap_cons]
  rw [if_neg hfail]
  simp

/-- Witness for C10: a failing middle project contributes nothing while both of
its neighbours' principals are kept. -/
theorem C10_role_error_isolation_witness :
    ((fun id => if id = "bad" then (⟨500, []⟩ : RoleResponse)
        else ⟨200, [⟨"users", "Alice", "a@x.com", ""⟩]⟩) "bad").status ≠ 200
      ∧ fetchRoleAssignments
          (fun id => if id = "bad" then (⟨500, []⟩ : RoleResponse)
            else ⟨200, [⟨"users", "Alice", "a@x.com", ""⟩]⟩)
          ([⟨"g1", "G1", [], ""⟩] ++ (⟨"bad", "B", [], ""⟩ : PipelineProject) :: [⟨"g2", "G2", [], ""⟩])
        = fetchRoleAssignments
            (fun id => if id = "bad" then (⟨500, []⟩ : RoleResponse)
              else ⟨200, [⟨"users", "Alice", "a@x.com", ""⟩]⟩) [⟨"g1", "G1", [], ""⟩]
          ++ fetchRoleAssignments
              (fun id => if id = "bad" then (⟨500, []⟩ : RoleResponse)
                else ⟨200, [⟨"users", "Alice", "a@x.com", ""⟩]⟩) [⟨"g2", "G2", [], ""⟩] := by
  refine ⟨by decide, ?_⟩
  exact C10_role_error_isolation _ [⟨"g1", "G1", [], ""⟩] ⟨"bad", "B", [], ""⟩
    [⟨"g2", "G2", [], ""⟩] (by decide)

end CopProfiler
